import Mathlib

/-!
Verification of the ldaptools LDIF document model and identity-allocation
subsystem.  The Lean definitions below are shallow embeddings of the Python
sources: `DistinguishedName` and the `LDIF` dictionary model come from
`ldaptools/ldif.py`, the identifier allocator and password-hash resolver from
`ldaptools/functions.py`, and the user record builders from
`ldaptools/user.py`.  Python strings manipulated character-wise are modelled
as `List Char`; machine-level concerns do not arise.  Exceptions are modelled
with `Except` / explicit error values.
-/

namespace Ldaptools

/-- Errors raised by the modelled code.  `valueError` carries the message of a
Python `ValueError`; `invalidName` models `ldaptools.exceptions.InvalidName`
(which stores the offending name); `identifiersExhausted` models
`ldaptools.exceptions.IdentifiersExhausted`. -/
inductive Err where
  | valueError (msg : String)
  | invalidName (name : String)
  | identifiersExhausted (msg : String)
deriving DecidableEq

/-- Character-list model of a Python `str` for code that splits strings. -/
abbrev Str := List Char

/-- Model of Python `str.split(sep)` for a single-character separator `c`:
splits on every occurrence, keeping empty fields, and returns `[[]]` on the
empty string (as Python returns `['']`). -/
def splitChar (c : Char) : Str → List Str
  | [] => [[]]
  | x :: xs =>
    if x = c then [] :: splitChar c xs
    else
      match splitChar c xs with
      | [] => [[x]]
      | f :: rest => (x :: f) :: rest

/-- Model of `sep.join(parts)` for a single-character separator. -/
def intercalateChar (c : Char) : List Str → Str
  | [] => []
  | [f] => f
  | f :: rest => f ++ c :: intercalateChar c rest

theorem splitChar_ne_nil (c : Char) (s : Str) : splitChar c s ≠ [] := by
  cases s with
  | nil => simp [splitChar]
  | cons x xs =>
    simp only [splitChar]
    split
    · simp
    · split <;> simp

theorem intercalateChar_cons (c : Char) (f g : Str) (rest : List Str) :
    intercalateChar c (f :: g :: rest) = f ++ c :: intercalateChar c (g :: rest) := by
  cases rest <;> rfl

theorem intercalateChar_splitChar (c : Char) (s : Str) :
    intercalateChar c (splitChar c s) = s := by
  induction s with
  | nil => rfl
  | cons x xs ih =>
    cases hs : splitChar c xs with
    | nil => exact absurd hs (splitChar_ne_nil c xs)
    | cons f rest =>
      rw [hs] at ih
      by_cases h : x = c
      · subst h
        simp only [splitChar, hs, if_pos]
        rw [intercalateChar_cons, ih]
        rfl
      · simp only [splitChar, if_neg h, hs]
        cases rest with
        | nil =>
          simp only [intercalateChar] at ih ⊢
          rw [ih]
        | cons g rs =>
          rw [intercalateChar_cons, List.cons_append, ← ih, intercalateChar_cons]

theorem splitChar_length (c : Char) (s : Str) :
    (splitChar c s).length = s.count c + 1 := by
  induction s with
  | nil => simp [splitChar]
  | cons x xs ih =>
    by_cases h : x = c
    · subst h
      simp [splitChar, List.count_cons, ih]
    · cases hs : splitChar c xs with
      | nil => exact absurd hs (splitChar_ne_nil c xs)
      | cons f rest =>
        rw [hs] at ih
        simp only [splitChar, if_neg h, hs, List.length_cons, List.count_cons]
        simp only [List.length_cons] at ih
        simp [ih, h]

theorem splitChar_of_not_mem (c : Char) (s : Str) (h : c ∉ s) :
    splitChar c s = [s] := by
  induction s with
  | nil => rfl
  | cons x xs ih =>
    have hx : ¬ x = c := fun hc => h (hc ▸ List.mem_cons_self x xs)
    have hxs : c ∉ xs := fun hc => h (List.mem_cons_of_mem x hc)
    simp [splitChar, if_neg hx, ih hxs]

theorem splitChar_sep_append (c : Char) (a b : Str) (ha : c ∉ a) :
    splitChar c (a ++ c :: b) = a :: splitChar c b := by
  induction a with
  | nil => simp [splitChar]
  | cons x xs ih =>
    have hx : ¬ x = c := fun hc => ha (hc ▸ List.mem_cons_self x xs)
    have hxs : c ∉ xs := fun hc => ha (List.mem_cons_of_mem x hc)
    have h2 := ih hxs
    simp only [List.cons_append, splitChar, if_neg hx]
    rw [show xs.append (c :: b) = xs ++ c :: b from rfl, h2]

theorem splitChar_pair (k v : Str) (hk : '=' ∉ k) (hv : '=' ∉ v) :
    splitChar '=' (k ++ '=' :: v) = [k, v] := by
  rw [splitChar_sep_append '=' k v hk, splitChar_of_not_mem '=' v hv]

/-- Model of `ldaptools.ldif.DistinguishedName` (ldif.py lines 12-24): the
four component slots set by `__init__`. -/
structure DistinguishedName where
  domain_components : List Str
  common_name : Option Str
  uid : Option Str
  organizational_unit : Option Str
deriving DecidableEq

/-- Model of `DistinguishedName.__iter__` (ldif.py lines 26-38): yields
`(key, value)` pairs — `cn`, `uid`, `ou` when set, then every `dc`. -/
def dnPairs (dn : DistinguishedName) : List (Str × Str) :=
  (match dn.common_name with
   | some v => [("cn".data, v)]
   | none => []) ++
  (match dn.uid with
   | some v => [("uid".data, v)]
   | none => []) ++
  (match dn.organizational_unit with
   | some v => [("ou".data, v)]
   | none => []) ++
  dn.domain_components.map (fun d => ("dc".data, d))

/-- Model of `DistinguishedName.__str__` (ldif.py lines 40-42):
`','.join('\x7b\x7d=\x7b\x7d'.format(key, value) for key, value in self)`. -/
def dnStr (dn : DistinguishedName) : Str :=
  intercalateChar ',' ((dnPairs dn).map (fun p => p.1 ++ '=' :: p.2))

/-- The field-processing loop of `DistinguishedName.from_string`
(ldif.py lines 52-75), carrying the accumulated components; a field whose
`'='`-split does not have exactly two parts models the Python unpacking
`ValueError`. -/
def parseFields :
    List Str → Option Str → Option Str → Option Str → List Str →
      Except Err DistinguishedName
  | [], cn, uid, ou, dcs => .ok ⟨dcs, cn, uid, ou⟩
  | f :: fs, cn, uid, ou, dcs =>
    match splitChar '=' f with
    | [k, v] =>
      if k = "cn".data then
        match cn with
        | none => parseFields fs (some v) uid ou dcs
        | some _ => .error (.valueError "Multiple common names specified.")
      else if k = "uid".data then
        match uid with
        | none => parseFields fs cn (some v) ou dcs
        | some _ => .error (.valueError "Multiple UIDs specified.")
      else if k = "ou".data then
        match ou with
        | none => parseFields fs cn uid (some v) dcs
        | some _ => .error (.valueError "Multiple organizational units specified.")
      else if k = "dc".data then
        parseFields fs cn uid ou (dcs ++ [v])
      else
        .error (.valueError "Invalid distinguished name component.")
    | _ => .error (.valueError "cannot unpack field")

/-- Model of `DistinguishedName.from_string` (ldif.py lines 44-79). -/
def DistinguishedName.from_string (s : Str) : Except Err DistinguishedName :=
  parseFields (splitChar ',' s) none none none []

/-- The key of a comma-separated DN field: the text before the first `=`. -/
def keyOf (f : Str) : Str := (splitChar '=' f).headD []

/-- How many fields of `fs` carry the key `k`. -/
def countKey (fs : List Str) (k : Str) : Nat :=
  fs.countP (fun f => decide (keyOf f = k))

/-- The values of the `dc` fields of a field list, in order. -/
def dcValues (fs : List Str) : List Str :=
  fs.filterMap (fun f =>
    match splitChar '=' f with
    | [k, v] => if k = "dc".data then some v else none
    | _ => none)

/-- The serialized field of one optional DN component. -/
def optField (k : Str) : Option Str → List Str
  | none => []
  | some v => [k ++ '=' :: v]

/-- The canonical field sequence of a DN string: `cn`, then `uid`, then `ou`
(each optional), then the `dc` fields. -/
def canonicalFields (cn uid ou : Option Str) (dcs : List Str) : List Str :=
  optField "cn".data cn ++ optField "uid".data uid ++ optField "ou".data ou ++
    dcs.map (fun v => "dc".data ++ '=' :: v)

theorem canonicalFields_cn (cv : Str) (uid ou : Option Str) (dcs : List Str) :
    canonicalFields (some cv) uid ou dcs =
      ("cn".data ++ '=' :: cv) :: canonicalFields none uid ou dcs := rfl

theorem canonicalFields_uid (u : Str) (ou : Option Str) (dcs : List Str) :
    canonicalFields none (some u) ou dcs =
      ("uid".data ++ '=' :: u) :: canonicalFields none none ou dcs := rfl

theorem canonicalFields_ou (w : Str) (dcs : List Str) :
    canonicalFields none none (some w) dcs =
      ("ou".data ++ '=' :: w) :: canonicalFields none none none dcs := rfl

theorem canonicalFields_dc (dcs : List Str) :
    canonicalFields none none none dcs =
      dcs.map (fun v => "dc".data ++ '=' :: v) := by
  simp [canonicalFields, optField]

theorem parse_cn_step (v : Str) (hv : '=' ∉ v) (fs : List Str)
    (uid ou : Option Str) (dcs : List Str) :
    parseFields (("cn".data ++ '=' :: v) :: fs) none uid ou dcs =
      parseFields fs (some v) uid ou dcs := by
  simp only [parseFields, splitChar_pair "cn".data v (by decide) hv]
  simp

theorem parse_uid_step (v : Str) (hv : '=' ∉ v) (fs : List Str)
    (cn ou : Option Str) (dcs : List Str) :
    parseFields (("uid".data ++ '=' :: v) :: fs) cn none ou dcs =
      parseFields fs cn (some v) ou dcs := by
  simp only [parseFields, splitChar_pair "uid".data v (by decide) hv]
  simp

theorem parse_ou_step (v : Str) (hv : '=' ∉ v) (fs : List Str)
    (cn uid : Option Str) (dcs : List Str) :
    parseFields (("ou".data ++ '=' :: v) :: fs) cn uid none dcs =
      parseFields fs cn uid (some v) dcs := by
  simp only [parseFields, splitChar_pair "ou".data v (by decide) hv]
  simp

theorem parse_dc_step (v : Str) (hv : '=' ∉ v) (fs : List Str)
    (cn uid ou : Option Str) (dcs : List Str) :
    parseFields (("dc".data ++ '=' :: v) :: fs) cn uid ou dcs =
      parseFields fs cn uid ou (dcs ++ [v]) := by
  simp only [parseFields, splitChar_pair "dc".data v (by decide) hv]
  simp

theorem parse_dc_fields (dcs : List Str) (cn uid ou : Option Str)
    (acc : List Str) (h : ∀ v ∈ dcs, '=' ∉ v) :
    parseFields (dcs.map (fun v => "dc".data ++ '=' :: v)) cn uid ou acc =
      .ok ⟨acc ++ dcs, cn, uid, ou⟩ := by
  induction dcs generalizing acc with
  | nil => simp [parseFields]
  | cons v vs ih =>
    have hv : '=' ∉ v := h v (List.mem_cons_self v vs)
    have hvs : ∀ w ∈ vs, '=' ∉ w := fun w hw => h w (List.mem_cons_of_mem v hw)
    rw [List.map_cons, parse_dc_step v hv, ih (acc ++ [v]) hvs]
    simp

theorem parse_canonical (cn uid ou : Option Str) (dcs : List Str)
    (hcn : ∀ v, cn = some v → '=' ∉ v) (huid : ∀ v, uid = some v → '=' ∉ v)
    (hou : ∀ v, ou = some v → '=' ∉ v) (hdc : ∀ v ∈ dcs, '=' ∉ v) :
    parseFields (canonicalFields cn uid ou dcs) none none none [] =
      .ok ⟨dcs, cn, uid, ou⟩ := by
  have hd := parse_dc_fields dcs cn uid ou [] hdc
  rw [List.nil_append] at hd
  cases cn with
  | some cv =>
    cases uid with
    | some u =>
      cases ou with
      | some w =>
        rw [canonicalFields_cn, parse_cn_step cv (hcn cv rfl),
          canonicalFields_uid, parse_uid_step u (huid u rfl),
          canonicalFields_ou, parse_ou_step w (hou w rfl), canonicalFields_dc]
        exact hd
      | none =>
        rw [canonicalFields_cn, parse_cn_step cv (hcn cv rfl),
          canonicalFields_uid, parse_uid_step u (huid u rfl), canonicalFields_dc]
        exact hd
    | none =>
      cases ou with
      | some w =>
        rw [canonicalFields_cn, parse_cn_step cv (hcn cv rfl),
          canonicalFields_ou, parse_ou_step w (hou w rfl), canonicalFields_dc]
        exact hd
      | none =>
        rw [canonicalFields_cn, parse_cn_step cv (hcn cv rfl), canonicalFields_dc]
        exact hd
  | none =>
    cases uid with
    | some u =>
      cases ou with
      | some w =>
        rw [canonicalFields_uid, parse_uid_step u (huid u rfl),
          canonicalFields_ou, parse_ou_step w (hou w rfl), canonicalFields_dc]
        exact hd
      | none =>
        rw [canonicalFields_uid, parse_uid_step u (huid u rfl), canonicalFields_dc]
        exact hd
    | none =>
      cases ou with
      | some w =>
        rw [canonicalFields_ou, parse_ou_step w (hou w rfl), canonicalFields_dc]
        exact hd
      | none =>
        rw [canonicalFields_dc]
        exact hd

theorem dnStr_eq_canonical (dcs : List Str) (cn uid ou : Option Str) :
    dnStr ⟨dcs, cn, uid, ou⟩ = intercalateChar ',' (canonicalFields cn uid ou dcs) := by
  cases cn <;> cases uid <;> cases ou <;>
    (simp only [dnStr, dnPairs, List.map_append, List.map_map]; rfl)

theorem count_eq_one_value (k v : Str) (hk : '=' ∉ k)
    (h : (k ++ '=' :: v).count '=' = 1) : '=' ∉ v := by
  rw [List.count_append, List.count_cons_self] at h
  have hk0 : k.count '=' = 0 := List.count_eq_zero.mpr hk
  rw [hk0] at h
  exact List.count_eq_zero.mp (by omega)

/-- C2: for every distinguished-name string whose comma-separated fields are in
canonical component ordering — the `cn`/`uid` components first, then `ou`, then
the `dc` components — with each field containing exactly one `=`, parsing with
`DistinguishedName.from_string` succeeds and re-serializing with `__str__`
yields a byte-identical string. -/
theorem dn_roundtrip_canonical (s : Str) (cn uid ou : Option Str) (dcs : List Str)
    (hsplit : splitChar ',' s = canonicalFields cn uid ou dcs)
    (hone : ∀ f ∈ splitChar ',' s, f.count '=' = 1) :
    ∃ dn, DistinguishedName.from_string s = .ok dn ∧ dnStr dn = s := by
  have hone' : ∀ f ∈ canonicalFields cn uid ou dcs, f.count '=' = 1 := by
    rw [← hsplit]
    exact hone
  have hcn : ∀ v, cn = some v → '=' ∉ v := by
    intro v hv
    subst hv
    refine count_eq_one_value "cn".data v (by decide) (hone' _ ?_)
    rw [canonicalFields_cn]
    exact List.mem_cons_self _ _
  have huid : ∀ v, uid = some v → '=' ∉ v := by
    intro v hv
    subst hv
    refine count_eq_one_value "uid".data v (by decide) (hone' _ ?_)
    cases cn <;> simp [canonicalFields, optField]
  have hou : ∀ v, ou = some v → '=' ∉ v := by
    intro v hv
    subst hv
    refine count_eq_one_value "ou".data v (by decide) (hone' _ ?_)
    cases cn <;> cases uid <;> simp [canonicalFields, optField]
  have hdc : ∀ v ∈ dcs, '=' ∉ v := by
    intro v hv
    refine count_eq_one_value "dc".data v (by decide) (hone' _ ?_)
    exact List.mem_append_right _ (List.mem_map_of_mem _ hv)
  refine ⟨⟨dcs, cn, uid, ou⟩, ?_, ?_⟩
  · show parseFields (splitChar ',' s) none none none [] = _
    rw [hsplit]
    exact parse_canonical cn uid ou dcs hcn huid hou hdc
  · rw [dnStr_eq_canonical, ← hsplit, intercalateChar_splitChar]

/-- Witness for C2 at the concrete canonical string
`uid=jdoe,ou=People,dc=example,dc=com`. -/
theorem dn_roundtrip_canonical_witness :
    ∃ dn,
      DistinguishedName.from_string ("uid=jdoe,ou=People,dc=example,dc=com".data) =
        .ok dn ∧
      dnStr dn = ("uid=jdoe,ou=People,dc=example,dc=com".data) :=
  dn_roundtrip_canonical _ none (some "jdoe".data) (some "People".data)
    ["example".data, "com".data] (by decide) (by decide)

/-- Occupancy of an accumulator slot of the parsing loop. -/
def occ : Option Str → Nat
  | none => 0
  | some _ => 1

theorem occ_le_one (o : Option Str) : occ o ≤ 1 := by
  cases o <;> simp [occ]

theorem countKey_cons (f : Str) (fs : List Str) (k : Str) :
    countKey (f :: fs) k = countKey fs k + (if keyOf f = k then 1 else 0) := by
  simp [countKey, List.countP_cons]

theorem parseFields_cons_cn_free (f k v : Str) (hsp : splitChar '=' f = [k, v])
    (hk : k = "cn".data) (fs : List Str) (uid ou : Option Str) (dcs : List Str) :
    parseFields (f :: fs) none uid ou dcs = parseFields fs (some v) uid ou dcs := by
  simp only [parseFields, hsp]
  rw [if_pos hk]

theorem parseFields_cons_cn_occ (f k v c0 : Str) (hsp : splitChar '=' f = [k, v])
    (hk : k = "cn".data) (fs : List Str) (uid ou : Option Str) (dcs : List Str) :
    parseFields (f :: fs) (some c0) uid ou dcs =
      .error (.valueError "Multiple common names specified.") := by
  simp only [parseFields, hsp]
  rw [if_pos hk]

theorem parseFields_cons_uid_free (f k v : Str) (hsp : splitChar '=' f = [k, v])
    (h1 : ¬ k = "cn".data) (hk : k = "uid".data) (fs : List Str)
    (cn ou : Option Str) (dcs : List Str) :
    parseFields (f :: fs) cn none ou dcs = parseFields fs cn (some v) ou dcs := by
  simp only [parseFields, hsp]
  rw [if_neg h1, if_pos hk]

theorem parseFields_cons_uid_occ (f k v u0 : Str) (hsp : splitChar '=' f = [k, v])
    (h1 : ¬ k = "cn".data) (hk : k = "uid".data) (fs : List Str)
    (cn ou : Option Str) (dcs : List Str) :
    parseFields (f :: fs) cn (some u0) ou dcs =
      .error (.valueError "Multiple UIDs specified.") := by
  simp only [parseFields, hsp]
  rw [if_neg h1, if_pos hk]

theorem parseFields_cons_ou_free (f k v : Str) (hsp : splitChar '=' f = [k, v])
    (h1 : ¬ k = "cn".data) (h2 : ¬ k = "uid".data) (hk : k = "ou".data)
    (fs : List Str) (cn uid : Option Str) (dcs : List Str) :
    parseFields (f :: fs) cn uid none dcs = parseFields fs cn uid (some v) dcs := by
  simp only [parseFields, hsp]
  rw [if_neg h1, if_neg h2, if_pos hk]

theorem parseFields_cons_ou_occ (f k v o0 : Str) (hsp : splitChar '=' f = [k, v])
    (h1 : ¬ k = "cn".data) (h2 : ¬ k = "uid".data) (hk : k = "ou".data)
    (fs : List Str) (cn uid : Option Str) (dcs : List Str) :
    parseFields (f :: fs) cn uid (some o0) dcs =
      .error (.valueError "Multiple organizational units specified.") := by
  simp only [parseFields, hsp]
  rw [if_neg h1, if_neg h2, if_pos hk]

theorem parseFields_cons_dc (f k v : Str) (hsp : splitChar '=' f = [k, v])
    (h1 : ¬ k = "cn".data) (h2 : ¬ k = "uid".data) (h3 : ¬ k = "ou".data)
    (hk : k = "dc".data) (fs : List Str) (cn uid ou : Option Str) (dcs : List Str) :
    parseFields (f :: fs) cn uid ou dcs = parseFields fs cn uid ou (dcs ++ [v]) := by
  simp only [parseFields, hsp]
  rw [if_neg h1, if_neg h2, if_neg h3, if_pos hk]

theorem parseFields_cons_invalid (f k v : Str) (hsp : splitChar '=' f = [k, v])
    (h1 : ¬ k = "cn".data) (h2 : ¬ k = "uid".data) (h3 : ¬ k = "ou".data)
    (h4 : ¬ k = "dc".data) (fs : List Str) (cn uid ou : Option Str) (dcs : List Str) :
    parseFields (f :: fs) cn uid ou dcs =
      .error (.valueError "Invalid distinguished name component.") := by
  simp only [parseFields, hsp]
  rw [if_neg h1, if_neg h2, if_neg h3, if_neg h4]

theorem parseFields_cons_short (f k : Str) (hsp : splitChar '=' f = [k])
    (fs : List Str) (cn uid ou : Option Str) (dcs : List Str) :
    parseFields (f :: fs) cn uid ou dcs =
      .error (.valueError "cannot unpack field") := by
  simp only [parseFields, hsp]

theorem parseFields_cons_long (f k v w : Str) (rest : List Str)
    (hsp : splitChar '=' f = k :: v :: w :: rest)
    (fs : List Str) (cn uid ou : Option Str) (dcs : List Str) :
    parseFields (f :: fs) cn uid ou dcs =
      .error (.valueError "cannot unpack field") := by
  simp only [parseFields, hsp]

/-- The parsing loop succeeds exactly when every remaining field splits into
two parts on `=`, every key is recognized, and no singleton key is claimed
twice (counting slots already occupied by the accumulator). -/
theorem parseFields_ok_iff (fs : List Str) (cn uid ou : Option Str) (dcs : List Str) :
    (∃ dn, parseFields fs cn uid ou dcs = .ok dn) ↔
      ((∀ f ∈ fs, (splitChar '=' f).length = 2 ∧
          (keyOf f = "cn".data ∨ keyOf f = "uid".data ∨ keyOf f = "ou".data ∨
            keyOf f = "dc".data)) ∧
       occ cn + countKey fs "cn".data ≤ 1 ∧
       occ uid + countKey fs "uid".data ≤ 1 ∧
       occ ou + countKey fs "ou".data ≤ 1) := by
  induction fs generalizing cn uid ou dcs with
  | nil =>
    simp only [parseFields, List.not_mem_nil, false_implies, implies_true, true_and,
      countKey, List.countP_nil, Nat.add_zero]
    constructor
    · intro _
      exact ⟨occ_le_one cn, occ_le_one uid, occ_le_one ou⟩
    · intro _
      exact ⟨_, rfl⟩
  | cons f fs ih =>
    cases hsp : splitChar '=' f with
    | nil => exact absurd hsp (splitChar_ne_nil '=' f)
    | cons k rest =>
      cases rest with
      | nil =>
        rw [parseFields_cons_short f k hsp fs cn uid ou dcs]
        constructor
        · rintro ⟨dn, hdn⟩
          cases hdn
        · rintro ⟨h1, -, -, -⟩
          have := (h1 f (List.mem_cons_self f fs)).1
          rw [hsp] at this
          cases this
      | cons v rest2 =>
        cases rest2 with
        | cons w rest3 =>
          rw [parseFields_cons_long f k v w rest3 hsp fs cn uid ou dcs]
          constructor
          · rintro ⟨dn, hdn⟩
            cases hdn
          · rintro ⟨h1, -, -, -⟩
            have := (h1 f (List.mem_cons_self f fs)).1
            rw [hsp] at this
            simp at this
        | nil =>
          have hkey : keyOf f = k := by simp [keyOf, hsp]
          have hlen : (splitChar '=' f).length = 2 := by rw [hsp]; rfl
          rw [List.forall_mem_cons]
          by_cases hcn : k = "cn".data
          · have hkcn : keyOf f = "cn".data := hkey.trans hcn
            have c1 : countKey (f :: fs) "cn".data = countKey fs "cn".data + 1 := by
              rw [countKey_cons, hkcn, if_pos rfl]
            have c2 : countKey (f :: fs) "uid".data = countKey fs "uid".data := by
              rw [countKey_cons, hkcn, if_neg (by decide), Nat.add_zero]
            have c3 : countKey (f :: fs) "ou".data = countKey fs "ou".data := by
              rw [countKey_cons, hkcn, if_neg (by decide), Nat.add_zero]
            rw [c1, c2, c3]
            cases cn with
            | some c0 =>
              rw [parseFields_cons_cn_occ f k v c0 hsp hcn fs uid ou dcs]
              constructor
              · rintro ⟨dn, hdn⟩
                cases hdn
              · rintro ⟨-, h2, -, -⟩
                simp only [occ] at h2
                exact absurd h2 (by omega)
            | none =>
              rw [parseFields_cons_cn_free f k v hsp hcn fs uid ou dcs, ih]
              simp only [occ]
              constructor
              · rintro ⟨h1, h2, h3, h4⟩
                exact ⟨⟨⟨hlen, Or.inl hkcn⟩, h1⟩, by omega, h3, h4⟩
              · rintro ⟨⟨-, h1⟩, h2, h3, h4⟩
                exact ⟨h1, by omega, h3, h4⟩
          · by_cases huid : k = "uid".data
            · have hkuid : keyOf f = "uid".data := hkey.trans huid
              have c1 : countKey (f :: fs) "cn".data = countKey fs "cn".data := by
                rw [countKey_cons, hkuid, if_neg (by decide), Nat.add_zero]
              have c2 : countKey (f :: fs) "uid".data = countKey fs "uid".data + 1 := by
                rw [countKey_cons, hkuid, if_pos rfl]
              have c3 : countKey (f :: fs) "ou".data = countKey fs "ou".data := by
                rw [countKey_cons, hkuid, if_neg (by decide), Nat.add_zero]
              rw [c1, c2, c3]
              cases uid with
              | some u0 =>
                rw [parseFields_cons_uid_occ f k v u0 hsp hcn huid fs cn ou dcs]
                constructor
                · rintro ⟨dn, hdn⟩
                  cases hdn
                · rintro ⟨-, -, h3, -⟩
                  simp only [occ] at h3
                  exact absurd h3 (by omega)
              | none =>
                rw [parseFields_cons_uid_free f k v hsp hcn huid fs cn ou dcs, ih]
                simp only [occ]
                constructor
                · rintro ⟨h1, h2, h3, h4⟩
                  exact ⟨⟨⟨hlen, Or.inr (Or.inl hkuid)⟩, h1⟩, h2, by omega, h4⟩
                · rintro ⟨⟨-, h1⟩, h2, h3, h4⟩
                  exact ⟨h1, h2, by omega, h4⟩
            · by_cases hou : k = "ou".data
              · have hkou : keyOf f = "ou".data := hkey.trans hou
                have c1 : countKey (f :: fs) "cn".data = countKey fs "cn".data := by
                  rw [countKey_cons, hkou, if_neg (by decide), Nat.add_zero]
                have c2 : countKey (f :: fs) "uid".data = countKey fs "uid".data := by
                  rw [countKey_cons, hkou, if_neg (by decide), Nat.add_zero]
                have c3 : countKey (f :: fs) "ou".data = countKey fs "ou".data + 1 := by
                  rw [countKey_cons, hkou, if_pos rfl]
                rw [c1, c2, c3]
                cases ou with
                | some o0 =>
                  rw [parseFields_cons_ou_occ f k v o0 hsp hcn huid hou fs cn uid dcs]
                  constructor
                  · rintro ⟨dn, hdn⟩
                    cases hdn
                  · rintro ⟨-, -, -, h4⟩
                    simp only [occ] at h4
                    exact absurd h4 (by omega)
                | none =>
                  rw [parseFields_cons_ou_free f k v hsp hcn huid hou fs cn uid dcs, ih]
                  simp only [occ]
                  constructor
                  · rintro ⟨h1, h2, h3, h4⟩
                    exact ⟨⟨⟨hlen, Or.inr (Or.inr (Or.inl hkou))⟩, h1⟩, h2, h3, by omega⟩
                  · rintro ⟨⟨-, h1⟩, h2, h3, h4⟩
                    exact ⟨h1, h2, h3, by omega⟩
              · by_cases hdc : k = "dc".data
                · have hkdc : keyOf f = "dc".data := hkey.trans hdc
                  have c1 : countKey (f :: fs) "cn".data = countKey fs "cn".data := by
                    rw [countKey_cons, hkdc, if_neg (by decide), Nat.add_zero]
                  have c2 : countKey (f :: fs) "uid".data = countKey fs "uid".data := by
                    rw [countKey_cons, hkdc, if_neg (by decide), Nat.add_zero]
                  have c3 : countKey (f :: fs) "ou".data = countKey fs "ou".data := by
                    rw [countKey_cons, hkdc, if_neg (by decide), Nat.add_zero]
                  rw [c1, c2, c3,
                    parseFields_cons_dc f k v hsp hcn huid hou hdc fs cn uid ou dcs, ih]
                  constructor
                  · rintro ⟨h1, h2, h3, h4⟩
                    exact ⟨⟨⟨hlen, Or.inr (Or.inr (Or.inr hkdc))⟩, h1⟩, h2, h3, h4⟩
                  · rintro ⟨⟨-, h1⟩, h2, h3, h4⟩
                    exact ⟨h1, h2, h3, h4⟩
                · rw [parseFields_cons_invalid f k v hsp hcn huid hou hdc fs cn uid ou dcs]
                  constructor
                  · rintro ⟨dn, hdn⟩
                    cases hdn
                  · rintro ⟨⟨hf, -⟩, -, -, -⟩
                    rcases hf.2 with h | h | h | h <;>
                      rw [hkey] at h
                    · exact absurd h hcn
                    · exact absurd h huid
                    · exact absurd h hou
                    · exact absurd h hdc

/-- C8: parsing a distinguished-name string fails exactly when some
comma-separated field does not contain exactly one `=` separator, or some
field's key is none of `cn`, `uid`, `ou`, `dc`, or one of `cn`, `uid`, `ou`
occurs in more than one field; in particular `dc` may occur any number of
times without failure. -/
theorem from_string_error_iff (s : Str) :
    (∃ e, DistinguishedName.from_string s = .error e) ↔
      ((∃ f ∈ splitChar ',' s, f.count '=' ≠ 1) ∨
       (∃ f ∈ splitChar ',' s, keyOf f ≠ "cn".data ∧ keyOf f ≠ "uid".data ∧
         keyOf f ≠ "ou".data ∧ keyOf f ≠ "dc".data) ∨
       1 < countKey (splitChar ',' s) "cn".data ∨
       1 < countKey (splitChar ',' s) "uid".data ∨
       1 < countKey (splitChar ',' s) "ou".data) := by
  have herr : (∃ e, DistinguishedName.from_string s = .error e) ↔
      ¬ (∃ dn, parseFields (splitChar ',' s) none none none [] = .ok dn) := by
    cases h : parseFields (splitChar ',' s) none none none [] with
    | ok dn => simp [DistinguishedName.from_string, h]
    | error e => simp [DistinguishedName.from_string, h]
  rw [herr, parseFields_ok_iff]
  constructor
  · intro hneg
    by_contra hcon
    push_neg at hcon
    obtain ⟨hc1, hc2, hc3, hc4, hc5⟩ := hcon
    refine hneg ⟨?_, ?_, ?_, ?_⟩
    · intro f hf
      refine ⟨?_, ?_⟩
      · rw [splitChar_length, hc1 f hf]
      · by_cases k1 : keyOf f = "cn".data
        · exact Or.inl k1
        · by_cases k2 : keyOf f = "uid".data
          · exact Or.inr (Or.inl k2)
          · by_cases k3 : keyOf f = "ou".data
            · exact Or.inr (Or.inr (Or.inl k3))
            · exact Or.inr (Or.inr (Or.inr (hc2 f hf k1 k2 k3)))
    · simpa [occ] using hc3
    · simpa [occ] using hc4
    · simpa [occ] using hc5
  · rintro (⟨f, hf, hcount⟩ | ⟨f, hf, hk1, hk2, hk3, hk4⟩ | hgt | hgt | hgt) hok
    · have hl := (hok.1 f hf).1
      rw [splitChar_length] at hl
      omega
    · rcases (hok.1 f hf).2 with h | h | h | h
      exacts [hk1 h, hk2 h, hk3 h, hk4 h]
    · have := hok.2.1
      simp only [occ, Nat.zero_add] at this
      omega
    · have := hok.2.2.1
      simp only [occ, Nat.zero_add] at this
      omega
    · have := hok.2.2.2
      simp only [occ, Nat.zero_add] at this
      omega

/-- Witness for C8: a string with a repeated `cn` key fails to parse. -/
theorem from_string_error_iff_witness :
    ∃ e, DistinguishedName.from_string ("cn=a,cn=b".data) = .error e :=
  (from_string_error_iff ("cn=a,cn=b".data)).mpr
    (Or.inr (Or.inr (Or.inl (by decide))))

theorem dcValues_cons_pair (f k v : Str) (hsp : splitChar '=' f = [k, v])
    (fs : List Str) :
    dcValues (f :: fs) =
      (if k = "dc".data then [v] else []) ++ dcValues fs := by
  simp only [dcValues, List.filterMap_cons, hsp]
  by_cases hk : k = "dc".data
  · rw [if_pos hk, if_pos hk]
    rfl
  · rw [if_neg hk, if_neg hk]
    rfl

/-- The parsing loop appends `dc` values to the accumulator in field order. -/
theorem parseFields_dc_order (fs : List Str) (cn uid ou : Option Str)
    (dcs : List Str) (dn : DistinguishedName)
    (h : parseFields fs cn uid ou dcs = .ok dn) :
    dn.domain_components = dcs ++ dcValues fs := by
  induction fs generalizing cn uid ou dcs with
  | nil =>
    cases h
    simp [dcValues]
  | cons f fs ih =>
    cases hsp : splitChar '=' f with
    | nil => exact absurd hsp (splitChar_ne_nil '=' f)
    | cons k rest =>
      cases rest with
      | nil =>
        rw [parseFields_cons_short f k hsp fs cn uid ou dcs] at h
        cases h
      | cons v rest2 =>
        cases rest2 with
        | cons w rest3 =>
          rw [parseFields_cons_long f k v w rest3 hsp fs cn uid ou dcs] at h
          cases h
        | nil =>
          rw [dcValues_cons_pair f k v hsp fs]
          by_cases hcn : k = "cn".data
          · rw [if_neg (by rw [hcn]; decide), List.nil_append]
            cases cn with
            | some c0 =>
              rw [parseFields_cons_cn_occ f k v c0 hsp hcn fs uid ou dcs] at h
              cases h
            | none =>
              rw [parseFields_cons_cn_free f k v hsp hcn fs uid ou dcs] at h
              exact ih (some v) uid ou dcs h
          · by_cases huid : k = "uid".data
            · rw [if_neg (by rw [huid]; decide), List.nil_append]
              cases uid with
              | some u0 =>
                rw [parseFields_cons_uid_occ f k v u0 hsp hcn huid fs cn ou dcs] at h
                cases h
              | none =>
                rw [parseFields_cons_uid_free f k v hsp hcn huid fs cn ou dcs] at h
                exact ih cn (some v) ou dcs h
            · by_cases hou : k = "ou".data
              · rw [if_neg (by rw [hou]; decide), List.nil_append]
                cases ou with
                | some o0 =>
                  rw [parseFields_cons_ou_occ f k v o0 hsp hcn huid hou fs cn uid dcs] at h
                  cases h
                | none =>
                  rw [parseFields_cons_ou_free f k v hsp hcn huid hou fs cn uid dcs] at h
                  exact ih cn uid (some v) dcs h
              · by_cases hdc : k = "dc".data
                · rw [if_pos hdc]
                  rw [parseFields_cons_dc f k v hsp hcn huid hou hdc fs cn uid ou dcs] at h
                  rw [ih cn uid ou (dcs ++ [v]) h]
                  simp
                · rw [parseFields_cons_invalid f k v hsp hcn huid hou hdc fs cn uid ou dcs] at h
                  cases h

/-- C9 counterexample: the parsed-then-serialized form of
`dc=example,cn=admin` is `cn=admin,dc=example` — iteration does not preserve
the component order given at construction by parsing. -/
theorem dn_order_counterexample :
    (DistinguishedName.from_string ("dc=example,cn=admin".data)).map dnStr =
        .ok ("cn=admin,dc=example".data) ∧
      ("cn=admin,dc=example".data : Str) ≠ ("dc=example,cn=admin".data : Str) := by
  constructor
  · rfl
  · decide

/-- C9 (amended): iteration of a `DistinguishedName` always yields the fixed
canonical order — `cn`, `uid`, `ou`, then the domain components — and for a
DN constructed by parsing a string only the relative order of the `dc`
components of the string is preserved, as the DN's domain components. -/
theorem dn_component_order (s : Str) (dn : DistinguishedName)
    (h : DistinguishedName.from_string s = .ok dn) :
    dnPairs dn =
        ((dn.common_name.map (fun v => ("cn".data, v))).toList ++
         (dn.uid.map (fun v => ("uid".data, v))).toList ++
         (dn.organizational_unit.map (fun v => ("ou".data, v))).toList ++
         dn.domain_components.map (fun d => ("dc".data, d))) ∧
      dn.domain_components = dcValues (splitChar ',' s) := by
  constructor
  · obtain ⟨dcs, cn, uid, ou⟩ := dn
    cases cn <;> cases uid <;> cases ou <;> rfl
  · have := parseFields_dc_order (splitChar ',' s) none none none [] dn h
    simpa using this

/-- Witness for C9's amended theorem at `uid=jdoe,dc=example,dc=com`. -/
theorem dn_component_order_witness :
    dnPairs ⟨["example".data, "com".data], none, some "jdoe".data, none⟩ =
        [("uid".data, "jdoe".data), ("dc".data, "example".data),
          ("dc".data, "com".data)] ∧
      (⟨["example".data, "com".data], none, some "jdoe".data, none⟩ :
          DistinguishedName).domain_components =
        dcValues (splitChar ',' ("uid=jdoe,dc=example,dc=com".data)) := by
  have h := dn_component_order ("uid=jdoe,dc=example,dc=com".data)
    ⟨["example".data, "com".data], none, some "jdoe".data, none⟩ rfl
  exact ⟨h.1.trans (by decide), h.2⟩

/-- Model of a Python `range(lo, hi)` pool: the ascending integers of
the half-open interval from `lo` to `hi`. -/
def pyRange (lo hi : Nat) : List Nat := List.range' lo (hi - lo)

/-- Model of `_get_unique_identifier` (functions.py lines 174-181): scan the
pool in order and return the first identifier not in `used`; raise
`IdentifiersExhausted` when the loop finishes without returning. -/
def get_unique_identifier (pool : List Nat) (used : List Nat) (name : String) :
    Except Err Nat :=
  match pool.find? (fun i => !decide (i ∈ used)) with
  | some i => .ok i
  | none => .error (.identifiersExhausted (name ++ "s exhausted."))

theorem mem_pyRange (lo hi m : Nat) : m ∈ pyRange lo hi ↔ lo ≤ m ∧ m < hi := by
  rw [pyRange, List.mem_range'_1]
  omega

theorem find_free_some_iff (used : List Nat) (n s i : Nat) :
    (List.range' s n).find? (fun j => !decide (j ∈ used)) = some i ↔
      (s ≤ i ∧ i < s + n ∧ i ∉ used ∧ ∀ m, s ≤ m → m < i → m ∈ used) := by
  induction n generalizing s with
  | zero =>
    rw [show List.range' s 0 = [] from rfl, List.find?_nil]
    constructor
    · intro h
      cases h
    · rintro ⟨h1, h2, -, -⟩
      exact absurd h2 (by omega)
  | succ n ih =>
    rw [List.range'_succ]
    by_cases hs : s ∈ used
    · rw [List.find?_cons_of_neg _ (by simp [hs]), ih (s + 1)]
      constructor
      · rintro ⟨h1, h2, h3, h4⟩
        refine ⟨by omega, by omega, h3, ?_⟩
        intro m hm1 hm2
        rcases Nat.eq_or_lt_of_le hm1 with he | hl
        · rw [← he]
          exact hs
        · exact h4 m (by omega) hm2
      · rintro ⟨h1, h2, h3, h4⟩
        have hi : ¬ s = i := fun he => h3 (he ▸ hs)
        exact ⟨by omega, by omega, h3, fun m hm1 hm2 => h4 m (by omega) hm2⟩
    · rw [List.find?_cons_of_pos _ (by simp [hs])]
      constructor
      · intro h
        have hsi : s = i := by injection h
        subst hsi
        exact ⟨Nat.le_refl s, by omega, hs, fun m hm1 hm2 => absurd (by omega : s < s) (by omega)⟩
      · rintro ⟨h1, h2, h3, h4⟩
        have : i = s := by
          by_contra hne
          exact hs (h4 s (Nat.le_refl s) (by omega))
        rw [this]

theorem find_free_none_iff (used : List Nat) (n s : Nat) :
    (List.range' s n).find? (fun j => !decide (j ∈ used)) = none ↔
      ∀ m, s ≤ m → m < s + n → m ∈ used := by
  rw [List.find?_eq_none]
  constructor
  · intro h m hm1 hm2
    by_contra hmem
    have := h m (by rw [List.mem_range'_1]; omega)
    simp [hmem] at this
  · intro h x hx
    rw [List.mem_range'_1] at hx
    simp [h x hx.1 (by omega)]

theorem get_unique_identifier_ok (pool used : List Nat) (name : String) (i : Nat) :
    get_unique_identifier pool used name = .ok i ↔
      pool.find? (fun j => !decide (j ∈ used)) = some i := by
  rcases hf : pool.find? (fun j => !decide (j ∈ used)) with _ | j <;>
    simp [get_unique_identifier, hf]

theorem get_unique_identifier_exhausted (pool used : List Nat) (name : String) :
    get_unique_identifier pool used name =
        .error (.identifiersExhausted (name ++ "s exhausted.")) ↔
      pool.find? (fun j => !decide (j ∈ used)) = none := by
  rcases hf : pool.find? (fun j => !decide (j ∈ used)) with _ | j <;>
    simp [get_unique_identifier, hf]

/-- C1: over the pool of ascending integers of the half-open interval from
`lo` to `hi`, the identifier allocator returns the smallest pool member that
is not in the used set, and it raises `IdentifiersExhausted` exactly when
every pool member is in the used set. -/
theorem get_unique_identifier_spec (lo hi : Nat) (used : List Nat) (name : String) :
    (∀ i, get_unique_identifier (pyRange lo hi) used name = .ok i ↔
       (i ∈ pyRange lo hi ∧ i ∉ used ∧ ∀ m ∈ pyRange lo hi, m < i → m ∈ used)) ∧
    (get_unique_identifier (pyRange lo hi) used name =
        .error (.identifiersExhausted (name ++ "s exhausted.")) ↔
      ∀ m ∈ pyRange lo hi, m ∈ used) := by
  constructor
  · intro i
    rw [get_unique_identifier_ok, pyRange, find_free_some_iff]
    constructor
    · rintro ⟨h1, h2, h3, h4⟩
      refine ⟨?_, h3, ?_⟩
      · rw [List.mem_range'_1]
        exact ⟨h1, h2⟩
      · intro m hm hmi
        rw [List.mem_range'_1] at hm
        exact h4 m hm.1 hmi
    · rintro ⟨h1, h2, h3⟩
      rw [List.mem_range'_1] at h1
      refine ⟨h1.1, h1.2, h2, ?_⟩
      intro m hm1 hm2
      exact h3 m (by rw [List.mem_range'_1]; omega) hm2
  · rw [get_unique_identifier_exhausted, pyRange, find_free_none_iff]
    constructor
    · intro h m hm
      rw [List.mem_range'_1] at hm
      exact h m hm.1 hm.2
    · intro h m hm1 hm2
      exact h m (by rw [List.mem_range'_1]; omega)

/-- Witness for C1 on the spec's two concrete allocation examples. -/
theorem get_unique_identifier_spec_witness :
    get_unique_identifier (pyRange 2000 2010) [2000, 2001, 2003] "UID" = .ok 2002 ∧
      get_unique_identifier (pyRange 2000 2005) [2000, 2001, 2002, 2003, 2004] "GID" =
        .error (.identifiersExhausted "GIDs exhausted.") := by
  constructor
  · exact ((get_unique_identifier_spec 2000 2010 [2000, 2001, 2003] "UID").1 2002).mpr
      (by decide)
  · exact (get_unique_identifier_spec 2000 2005 [2000, 2001, 2002, 2003, 2004]
      "GID").2.mpr (by decide)

/-- Model of `get_pwhash` (functions.py lines 158-171); the external
`slappasswd` collaborator is abstracted as `slap`. -/
def get_pwhash (slap : String → String) (passwd pwhash : Option String) :
    Except Err String :=
  match passwd, pwhash with
  | some p, none => .ok (slap p)
  | none, some h => .ok h
  | _, _ => .error (.valueError "Must specify either passwd or pwhash.")

/-- C5: the password resolver succeeds exactly when precisely one of `passwd`
and `pwhash` is non-null; a lone `pwhash` is returned unchanged; both or
neither raise the ambiguous-credential `ValueError`. -/
theorem get_pwhash_spec (slap : String → String) (passwd pwhash : Option String) :
    ((∃ r, get_pwhash slap passwd pwhash = .ok r) ↔
       ((passwd.isSome ∧ pwhash = none) ∨ (passwd = none ∧ pwhash.isSome))) ∧
    (∀ h, get_pwhash slap none (some h) = .ok h) ∧
    (passwd = none → pwhash = none →
      get_pwhash slap passwd pwhash =
        .error (.valueError "Must specify either passwd or pwhash.")) ∧
    (passwd.isSome → pwhash.isSome →
      get_pwhash slap passwd pwhash =
        .error (.valueError "Must specify either passwd or pwhash.")) := by
  cases passwd <;> cases pwhash <;> simp [get_pwhash]

/-- Witness for C5: both arguments raise, a lone hash is returned unchanged. -/
theorem get_pwhash_spec_witness :
    get_pwhash (fun s => String.append "H" s) (some "pw") (some "hash") =
        .error (.valueError "Must specify either passwd or pwhash.") ∧
      get_pwhash (fun s => String.append "H" s) none (some "hash") = .ok "hash" := by
  have h := get_pwhash_spec (fun s => String.append "H" s) (some "pw") (some "hash")
  exact ⟨h.2.2.2 (by decide) (by decide), h.2.1 "hash"⟩

/-- Model of `get_cn` (user.py lines 13-22): derive the common name from the
first and last name, requiring both or neither. -/
def get_cn (first_name last_name : Option String) : Except Err (Option String) :=
  match first_name, last_name with
  | none, none => .ok none
  | some f, some l => .ok (some (f ++ " " ++ l))
  | _, _ => .error (.valueError "Must specify both, first and last name or neither.")

/-- Modelled from the spec: the configuration surface read by the user
builders (`user.ou`, `common.domain`, `user.shell`, `user.home`,
`user.classes`); `user_classes` lists the configured user object classes in
their iteration order. -/
structure Config where
  user_ou : String
  domain : String
  user_shell : String
  user_home : String
  user_classes : List String

/-- Model of `with_fallback` (user.py lines 25-31): the explicit argument
wins, else the configured value is used. -/
def with_fallback (cfg : Config) (ou domain : Option String) : String × String :=
  (match ou with
   | none => cfg.user_ou
   | some o => o,
   match domain with
   | none => cfg.domain
   | some d => d)

/-- Model of splitting a dotted domain string on `.` (per spec section 3). -/
def pySplitDot (domain : String) : List String :=
  (splitChar '.' domain.data).map List.asString

/-- Modelled from the spec: `DistinguishedName.for_user` is not among the
sources; per spec section 3 it builds `uid=<login>, ou=<ou>` followed by one
`dc` component per non-empty segment of the dotted domain, in order. -/
def for_user (name domain ou : String) : List (String × String) :=
  ("uid", name) :: ("ou", ou) ::
    ((pySplitDot domain).filter (fun p => ¬ p = "")).map (fun d => ("dc", d))

/-- Modelled from the spec: a DN value serializes by joining its `key=value`
component serializations with commas. -/
def renderDN (pairs : List (String × String)) : String :=
  String.intercalate "," (pairs.map (fun p => p.1 ++ "=" ++ p.2))

/-- Split a template on occurrences of the two-character placeholder
`\x7b\x7d`. -/
def splitBraces : List Char → List (List Char)
  | [] => [[]]
  | '\x7b' :: '\x7d' :: rest => [] :: splitBraces rest
  | x :: rest =>
    match splitBraces rest with
    | [] => [[x]]
    | f :: fs => (x :: f) :: fs

/-- Model of Python `str.format` with one positional argument, for templates
containing a single `\x7b\x7d` placeholder (the builders' home templates). -/
def pyFormat (template arg : String) : String :=
  String.intercalate arg ((splitBraces template.data).map List.asString)

/-- Model of `create` (user.py lines 34-79).  `LDIF.constructor` and
`LDIFEntry` are not among the sources and are modelled from the spec: the
builder materializes the yielded `(attribute, value)` pairs, in order, into an
ordered document.  The `get_uid`/`get_gid` allocator calls are abstracted by
the successfully allocated values `alloc_uid`/`alloc_gid` and `slappasswd` by
`slap`; integer values are serialized with `toString` as Python `str` does. -/
def create (cfg : Config) (slap : String → String) (alloc_uid alloc_gid : Nat)
    (name first_name last_name : String) (passwd pwhash : Option String)
    (uid gid : Option Nat) (home shell ou domain : Option String) :
    Except Err (List (String × String)) := do
  let od := with_fallback cfg ou domain
  let dn := renderDN (for_user name od.2 od.1)
  let pw ← get_pwhash slap passwd pwhash
  let shellV := match shell with
    | none => cfg.user_shell
    | some s => s
  let uidV := match uid with
    | none => alloc_uid
    | some u => u
  let gidV := match gid with
    | none => alloc_gid
    | some g => g
  let homeV := pyFormat (match home with
    | none => cfg.user_home
    | some h => h) name
  pure ([("dn", dn)] ++ cfg.user_classes.map (fun c => ("objectClass", c)) ++
    [("uid", name), ("cn", first_name ++ " " ++ last_name), ("sn", last_name),
     ("givenName", first_name), ("userPassword", pw), ("loginShell", shellV),
     ("uidNumber", toString uidV), ("gidNumber", toString gidV),
     ("homeDirectory", homeV)])

/-- C3: a successfully built create-user document is ordered `dn`, the
`objectClass` entries, then `uid`, `cn`, `sn`, `givenName`, `userPassword`,
`loginShell`, `uidNumber`, `gidNumber`, `homeDirectory`; the `cn` value is
first name, one space, last name; `homeDirectory` is the home template with
the login name substituted in; `uidNumber` and `gidNumber` are the supplied
arguments when given, else the allocated values. -/
theorem create_spec (cfg : Config) (slap : String → String)
    (alloc_uid alloc_gid : Nat) (name first_name last_name : String)
    (passwd pwhash : Option String) (uid gid : Option Nat)
    (home shell ou domain : Option String) (pw : String)
    (hpw : get_pwhash slap passwd pwhash = .ok pw) :
    create cfg slap alloc_uid alloc_gid name first_name last_name passwd pwhash
        uid gid home shell ou domain =
      .ok ([("dn", renderDN (for_user name ((with_fallback cfg ou domain).2)
              ((with_fallback cfg ou domain).1)))] ++
        cfg.user_classes.map (fun c => ("objectClass", c)) ++
        [("uid", name), ("cn", first_name ++ " " ++ last_name),
         ("sn", last_name), ("givenName", first_name), ("userPassword", pw),
         ("loginShell", shell.getD cfg.user_shell),
         ("uidNumber", toString (uid.getD alloc_uid)),
         ("gidNumber", toString (gid.getD alloc_gid)),
         ("homeDirectory", pyFormat (home.getD cfg.user_home) name)]) := by
  unfold create
  rw [hpw]
  cases uid <;> cases gid <;> cases home <;> cases shell <;> rfl

/-- Witness for C3 at the spec's example inputs: `name="jdoe"`,
`first="Jane"`, `last="Doe"`, home template `/home/\x7b\x7d`. -/
theorem create_spec_witness :
    create ⟨"People", "example.com", "/bin/bash", "/home/\x7b\x7d",
        ["top", "person"]⟩ (fun s => String.append "H" s) 2001 2002
        "jdoe" "Jane" "Doe" none (some "SSHA-hash") none none none none none none =
      .ok [("dn", "uid=jdoe,ou=People,dc=example,dc=com"),
        ("objectClass", "top"), ("objectClass", "person"), ("uid", "jdoe"),
        ("cn", "Jane Doe"), ("sn", "Doe"), ("givenName", "Jane"),
        ("userPassword", "SSHA-hash"), ("loginShell", "/bin/bash"),
        ("uidNumber", "2001"), ("gidNumber", "2002"),
        ("homeDirectory", "/home/jdoe")] := by
  have h := create_spec ⟨"People", "example.com", "/bin/bash", "/home/\x7b\x7d",
    ["top", "person"]⟩ (fun s => String.append "H" s) 2001 2002 "jdoe" "Jane"
    "Doe" none (some "SSHA-hash") none none none none none none "SSHA-hash" rfl
  exact h.trans rfl

/-- The two-line `replace` block of one optional modify field. -/
def optEntries (o : Option String) (f : String → List (String × String)) :
    List (String × String) :=
  match o with
  | none => []
  | some v => f v

/-- Model of `modify` (user.py lines 82-146), with the same spec-modelled
conventions as `create`: an ordered document of the yielded pairs, built with
`get_cn` and, when a credential was supplied, `get_pwhash`. -/
def modify (cfg : Config) (slap : String → String) (name : String)
    (new_name : Option String) (uid gid : Option Nat)
    (first_name last_name passwd pwhash home shell ou domain : Option String) :
    Except Err (List (String × String)) := do
  let od := with_fallback cfg ou domain
  let dn := renderDN (for_user name od.2 od.1)
  let cn ← get_cn first_name last_name
  let pw ← match passwd, pwhash with
    | none, none => Except.ok (none : Option String)
    | _, _ => (get_pwhash slap passwd pwhash).map some
  pure ([("dn", dn), ("changetype", "modify")] ++
    optEntries new_name (fun v => [("replace", "uid"), ("uid", v)]) ++
    optEntries cn (fun v => [("replace", "cn"), ("cn", v)]) ++
    optEntries last_name (fun v => [("replace", "sn"), ("sn", v)]) ++
    optEntries first_name (fun v => [("replace", "givenName"), ("givenName", v)]) ++
    optEntries pw (fun v => [("replace", "userPassword"), ("userPassword", v)]) ++
    optEntries shell (fun v => [("replace", "loginShell"), ("loginShell", v)]) ++
    optEntries (uid.map toString)
      (fun v => [("replace", "uidNumber"), ("uidNumber", v)]) ++
    optEntries (gid.map toString)
      (fun v => [("replace", "gidNumber"), ("gidNumber", v)]) ++
    optEntries home (fun v => [("replace", "homeDirectory"), ("homeDirectory", v)]))

/-- C7: for every combination of supplied arguments (with a consistent name
pair and an unambiguous credential), the modify-user builder emits `dn`, then
`changetype: modify`, then exactly one `replace`/value pair per supplied
field and none for absent fields, in the fixed order uid, cn, sn, givenName,
userPassword, loginShell, uidNumber, gidNumber, homeDirectory. -/
theorem modify_spec (cfg : Config) (slap : String → String) (name : String)
    (new_name : Option String) (uid gid : Option Nat)
    (first_name last_name passwd pwhash home shell ou domain : Option String)
    (hname : first_name = none ↔ last_name = none)
    (hpw : passwd = none ∨ pwhash = none) :
    modify cfg slap name new_name uid gid first_name last_name passwd pwhash
        home shell ou domain =
      .ok ([("dn", renderDN (for_user name ((with_fallback cfg ou domain).2)
              ((with_fallback cfg ou domain).1))),
            ("changetype", "modify")] ++
        optEntries new_name (fun v => [("replace", "uid"), ("uid", v)]) ++
        optEntries (match first_name, last_name with
          | some f, some l => some (f ++ " " ++ l)
          | _, _ => none) (fun v => [("replace", "cn"), ("cn", v)]) ++
        optEntries last_name (fun v => [("replace", "sn"), ("sn", v)]) ++
        optEntries first_name
          (fun v => [("replace", "givenName"), ("givenName", v)]) ++
        optEntries (match passwd, pwhash with
          | some p, none => some (slap p)
          | none, some h => some h
          | _, _ => none)
          (fun v => [("replace", "userPassword"), ("userPassword", v)]) ++
        optEntries shell (fun v => [("replace", "loginShell"), ("loginShell", v)]) ++
        optEntries (uid.map toString)
          (fun v => [("replace", "uidNumber"), ("uidNumber", v)]) ++
        optEntries (gid.map toString)
          (fun v => [("replace", "gidNumber"), ("gidNumber", v)]) ++
        optEntries home
          (fun v => [("replace", "homeDirectory"), ("homeDirectory", v)])) := by
  cases first_name with
  | some f =>
    cases last_name with
    | none => exact absurd (hname.mpr rfl) (by simp)
    | some l =>
      rcases hpw with h | h
      · subst h
        cases pwhash <;> rfl
      · subst h
        cases passwd <;> rfl
  | none =>
    have hl : last_name = none := hname.mp rfl
    subst hl
    rcases hpw with h | h
    · subst h
      cases pwhash <;> rfl
    · subst h
      cases passwd <;> rfl

/-- Witness for C7: a modify with name pair, uid, pre-hashed credential and
home supplied, everything else absent. -/
theorem modify_spec_witness :
    modify ⟨"People", "example.com", "/bin/bash", "/home/\x7b\x7d", []⟩
        (fun s => String.append "H" s) "jdoe" none (some 1234) none
        (some "Jane") (some "Doe") none (some "NEWHASH") (some "/data/jdoe")
        none none none =
      .ok [("dn", "uid=jdoe,ou=People,dc=example,dc=com"),
        ("changetype", "modify"),
        ("replace", "cn"), ("cn", "Jane Doe"),
        ("replace", "sn"), ("sn", "Doe"),
        ("replace", "givenName"), ("givenName", "Jane"),
        ("replace", "userPassword"), ("userPassword", "NEWHASH"),
        ("replace", "uidNumber"), ("uidNumber", "1234"),
        ("replace", "homeDirectory"), ("homeDirectory", "/data/jdoe")] := by
  have h := modify_spec ⟨"People", "example.com", "/bin/bash", "/home/\x7b\x7d", []⟩
    (fun s => String.append "H" s) "jdoe" none (some 1234) none
    (some "Jane") (some "Doe") none (some "NEWHASH") (some "/data/jdoe")
    none none none (by simp) (Or.inl rfl)
  exact h.trans rfl

/-- C6: building a modify-user document with exactly one of the first and
last name supplied raises the incomplete-name `ValueError`; `get_cn` derives
the common name when both are supplied, and no common name when neither is. -/
theorem modify_incomplete_name (cfg : Config) (slap : String → String)
    (name : String) (new_name : Option String) (uid gid : Option Nat)
    (passwd pwhash home shell ou domain : Option String) :
    (∀ f, modify cfg slap name new_name uid gid (some f) none passwd pwhash
        home shell ou domain =
      .error (.valueError "Must specify both, first and last name or neither.")) ∧
    (∀ l, modify cfg slap name new_name uid gid none (some l) passwd pwhash
        home shell ou domain =
      .error (.valueError "Must specify both, first and last name or neither.")) ∧
    (∀ f l, get_cn (some f) (some l) = .ok (some (f ++ " " ++ l))) ∧
    get_cn none none = .ok none :=
  ⟨fun _ => rfl, fun _ => rfl, fun _ _ => rfl, rfl⟩

/-- A Python value stored in the `LDIF` dictionary: `None`, a string-like
scalar, or a list/tuple of strings. -/
inductive PyVal where
  | pyNone
  | str (s : String)
  | list (l : List String)
deriving DecidableEq

/-- The state of an `LDIF` dictionary (ldif.py line 82): an insertion-ordered
association list, as a Python `dict` is. -/
abbrev LDIFState := List (String × PyVal)

/-- Model of `LDIF.__setitem__` (ldif.py lines 89-97): assigning `None`
deletes the key (a missing key is ignored); otherwise a present key is
updated in place and a fresh key is appended, as in a Python dict. -/
def setItem (st : LDIFState) (k : String) (v : PyVal) : LDIFState :=
  match v with
  | .pyNone => st.filter (fun p => !(p.1 == k))
  | _ =>
    if st.any (fun p => p.1 == k) then
      st.map (fun p => if p.1 = k then (k, v) else p)
    else
      st ++ [(k, v)]

/-- Model of `LDIF.entries` (ldif.py lines 99-110): flatten each stored value
into `(attribute, value)` pairs — one pair per element of a list value, in
element order — skipping `None`. -/
def entries (st : LDIFState) : List (String × String) :=
  st.flatMap (fun p => match p.2 with
    | .pyNone => []
    | .str s => [(p.1, s)]
    | .list l => l.map (fun x => (p.1, x)))

/-- Model of `LDIF.lines` (ldif.py lines 112-116): one `name: value` line per
entry of the entries view. -/
def lines (st : LDIFState) : List String :=
  (entries st).map (fun e => e.1 ++ ": " ++ e.2)

theorem lines_eq_blocks (st : LDIFState) :
    lines st = st.flatMap (fun p => match p.2 with
      | PyVal.pyNone => []
      | PyVal.str v => [p.1 ++ ": " ++ v]
      | PyVal.list l => l.map (fun x => p.1 ++ ": " ++ x)) := by
  induction st with
  | nil => rfl
  | cons p st ih =>
    obtain ⟨key, v⟩ := p
    simp only [lines, entries, List.flatMap_cons, List.map_append] at ih ⊢
    cases v with
    | pyNone => simpa using ih
    | str s => simpa using ih
    | list l =>
      simp only [List.map_map]
      rw [ih]
      rfl

theorem entries_key_mem (st : LDIFState) (e : String × String)
    (he : e ∈ entries st) : ∃ p ∈ st, p.1 = e.1 := by
  induction st with
  | nil => cases he
  | cons p st ih =>
    rw [entries, List.flatMap_cons] at he
    rcases List.mem_append.mp he with h | h
    · refine ⟨p, List.mem_cons_self p st, ?_⟩
      obtain ⟨key, v⟩ := p
      cases v with
      | pyNone => cases h
      | str s =>
        rw [List.mem_singleton.mp h]
      | list l =>
        obtain ⟨x, hx, hxe⟩ := List.mem_map.mp h
        rw [← hxe]
    · obtain ⟨q, hq, hqe⟩ := ih h
      exact ⟨q, List.mem_cons_of_mem p hq, hqe⟩

/-- C4: the line serialization emits exactly one `name: value` line per entry
of the entries view — a list-valued attribute contributes one line per
element in element order (appended at the end for a fresh key), and a key
assigned `None` is removed and contributes no line at all. -/
theorem lines_spec (st : LDIFState) (k : String) (vs : List String) :
    (lines st = st.flatMap (fun p => match p.2 with
        | PyVal.pyNone => []
        | PyVal.str v => [p.1 ++ ": " ++ v]
        | PyVal.list l => l.map (fun x => p.1 ++ ": " ++ x))) ∧
    ((∀ p ∈ st, p.1 ≠ k) →
      lines (setItem st k (PyVal.list vs)) =
        lines st ++ vs.map (fun x => k ++ ": " ++ x)) ∧
    (∀ e ∈ entries (setItem st k PyVal.pyNone), e.1 ≠ k) := by
  refine ⟨lines_eq_blocks st, ?_, ?_⟩
  · intro hfresh
    have hany : st.any (fun p => p.1 == k) = false := by
      rw [List.any_eq_false]
      intro p hp
      simpa using hfresh p hp
    rw [setItem]
    rw [if_neg (by rw [hany]; exact Bool.false_ne_true)]
    rw [lines, entries, List.flatMap_append, List.map_append]
    congr 1
    simp only [List.flatMap_cons, List.flatMap_nil, List.append_nil, List.map_map]
    rfl
    nofun
  · intro e he
    obtain ⟨p, hp, hpe⟩ := entries_key_mem _ e he
    have hm := List.mem_filter.mp hp
    have : ¬ p.1 = k := by simpa using hm.2
    rw [← hpe]
    exact this

/-- Witness for C4: a document with a two-element `objectClass` list value
serializes as two `objectClass` lines, in list order, after the `dn` line. -/
theorem lines_spec_witness :
    lines (setItem [("dn", PyVal.str "cn=grp,ou=Group,dc=example,dc=com")]
        "objectClass" (PyVal.list ["top", "posixGroup"])) =
      ["dn: cn=grp,ou=Group,dc=example,dc=com",
       "objectClass: top", "objectClass: posixGroup"] := by
  have h := (lines_spec [("dn", PyVal.str "cn=grp,ou=Group,dc=example,dc=com")]
    "objectClass" ["top", "posixGroup"]).2.1 (by decide)
  exact h.trans (by decide)

/-- The ASCII whitespace characters recognized by Python `str.split()`. -/
def pyIsSpace (c : Char) : Bool :=
  (c == ' ') || (c == '\t') || (c == '\n') || (c == '\r') ||
    (c == '\x0b') || (c == '\x0c')

/-- Model of Python `name.split(maxsplit=1)`: skip leading whitespace; if
nothing remains, no parts; otherwise take the first token, skip the following
whitespace run, and keep the remainder verbatim when non-empty. -/
def splitMax1 (s : List Char) : List (List Char) :=
  if (s.dropWhile pyIsSpace).isEmpty then []
  else
    [(s.dropWhile pyIsSpace).takeWhile (fun c => !pyIsSpace c)] ++
      (if (((s.dropWhile pyIsSpace).dropWhile (fun c => !pyIsSpace c)).dropWhile
            pyIsSpace).isEmpty then []
       else [((s.dropWhile pyIsSpace).dropWhile (fun c => !pyIsSpace c)).dropWhile
         pyIsSpace])

/-- The name contains a whitespace separator: after the leading whitespace and
the first token, a further non-whitespace character occurs. -/
def hasWhitespaceSep (s : List Char) : Bool :=
  ((s.dropWhile pyIsSpace).dropWhile (fun c => !pyIsSpace c)).any
    (fun c => !pyIsSpace c)

/-- Model of the `LDIFUser.name` setter (ldif.py lines 310-320): split the
name on the first whitespace run; when fewer than two parts result, raise
`InvalidName` with the record unchanged (the split precedes every mutation);
otherwise set `cn` to the whole name, `sn` to the remainder and `givenName`
to the first token, via the property setters in that order. -/
def setUserName (st : LDIFState) (name : String) : LDIFState × Option Err :=
  match splitMax1 name.data with
  | [g, sn] =>
    (setItem (setItem (setItem st "cn" (PyVal.str name)) "sn"
        (PyVal.str sn.asString)) "givenName" (PyVal.str g.asString), none)
  | _ => (st, some (Err.invalidName name))

theorem dropWhile_empty_iff (t : List Char) :
    (t.dropWhile pyIsSpace).isEmpty = true ↔
      t.any (fun c => !pyIsSpace c) = false := by
  induction t with
  | nil => simp
  | cons x xs ih =>
    by_cases hx : pyIsSpace x
    · simp [List.dropWhile_cons, hx, ih]
    · simp [List.dropWhile_cons, hx]

theorem splitMax1_pair (s : List Char) (h : hasWhitespaceSep s = true) :
    splitMax1 s =
      [(s.dropWhile pyIsSpace).takeWhile (fun c => !pyIsSpace c),
       ((s.dropWhile pyIsSpace).dropWhile (fun c => !pyIsSpace c)).dropWhile
         pyIsSpace] := by
  unfold hasWhitespaceSep at h
  have h1 : (s.dropWhile pyIsSpace).isEmpty = false := by
    cases hb : (s.dropWhile pyIsSpace).isEmpty with
    | false => rfl
    | true =>
      rw [List.isEmpty_iff] at hb
      rw [hb] at h
      cases h
  have h2 : (((s.dropWhile pyIsSpace).dropWhile (fun c => !pyIsSpace c)).dropWhile
      pyIsSpace).isEmpty = false := by
    cases hb : (((s.dropWhile pyIsSpace).dropWhile (fun c => !pyIsSpace c)).dropWhile
        pyIsSpace).isEmpty with
    | false => rfl
    | true =>
      rw [dropWhile_empty_iff] at hb
      rw [hb] at h
      cases h
  unfold splitMax1
  rw [if_neg (by rw [h1]; simp), if_neg (by rw [h2]; simp)]
  rfl

theorem splitMax1_short (s : List Char) (h : hasWhitespaceSep s = false) :
    splitMax1 s = [] ∨ ∃ t, splitMax1 s = [t] := by
  unfold splitMax1
  by_cases h1 : (s.dropWhile pyIsSpace).isEmpty = true
  · rw [if_pos h1]
    exact Or.inl rfl
  · rw [if_neg h1]
    have h2 : (((s.dropWhile pyIsSpace).dropWhile (fun c => !pyIsSpace c)).dropWhile
        pyIsSpace).isEmpty = true := by
      rw [dropWhile_empty_iff]
      unfold hasWhitespaceSep at h
      exact h
    rw [if_pos h2]
    exact Or.inr ⟨_, rfl⟩

/-- C10: assigning a full name without a whitespace separator to an LDIF user
record raises `InvalidName` (carrying the name) and leaves the record
unchanged; with a separator, `cn` is set to the whole name, `givenName` to
the first token and `sn` to the remainder. -/
theorem setUserName_spec (st : LDIFState) (name : String) :
    (hasWhitespaceSep name.data = false →
      setUserName st name = (st, some (Err.invalidName name))) ∧
    (hasWhitespaceSep name.data = true →
      setUserName st name =
        (setItem (setItem (setItem st "cn" (PyVal.str name)) "sn"
            (PyVal.str ((((name.data.dropWhile pyIsSpace).dropWhile
              (fun c => !pyIsSpace c)).dropWhile pyIsSpace).asString)))
          "givenName"
          (PyVal.str (((name.data.dropWhile pyIsSpace).takeWhile
            (fun c => !pyIsSpace c)).asString)), none)) := by
  constructor
  · intro h
    rcases splitMax1_short name.data h with h0 | ⟨t, h1⟩
    · unfold setUserName
      rw [h0]
    · unfold setUserName
      rw [h1]
  · intro h
    unfold setUserName
    rw [splitMax1_pair name.data h]

/-- Witness for C10: `Jane Doe` populates cn/sn/givenName; `Jane` raises
`InvalidName` and leaves the record unchanged. -/
theorem setUserName_spec_witness :
    setUserName [("uid", PyVal.str "jdoe")] "Jane Doe" =
        ([("uid", PyVal.str "jdoe"), ("cn", PyVal.str "Jane Doe"),
          ("sn", PyVal.str "Doe"), ("givenName", PyVal.str "Jane")], none) ∧
      setUserName [("uid", PyVal.str "jdoe")] "Jane" =
        ([("uid", PyVal.str "jdoe")], some (Err.invalidName "Jane")) := by
  have h1 := (setUserName_spec [("uid", PyVal.str "jdoe")] "Jane Doe").2 (by decide)
  have h2 := (setUserName_spec [("uid", PyVal.str "jdoe")] "Jane").1 (by decide)
  exact ⟨h1.trans (by decide), h2⟩
